import Mathlib

/-!
# pf2 profiling session (`ext/pf2/session.c`)

A shallow embedding of the session core of the pf2 sampling profiler: the
growable sample store and its doubling reallocation, the collector thread's
drain loop, the `SIGPROF` handler, the GC mark callback, and the start/stop
lifecycle with its timer arithmetic.

Conventions.
* `size_t` and `uint64_t` are 64 bits wide: values are natural numbers reduced
  modulo `2^64` wherever the C code could wrap.
* `int`, `time_t` and `long` values are integers; the places where a C
  operation would be undefined are called out at the definition.
* Results of calls into libc, the kernel and the Ruby VM are inputs of the
  model (an outcome per call), so every theorem quantifies over them.
* Loops whose trip count is not bounded syntactically take a fuel argument and
  return `none` when it runs out; the theorems show how much fuel suffices.
-/

namespace Pf2

/-! ## Data model -/

/-- Host object reference (`VALUE`); the profiler only stores and forwards it. -/
abbrev VALUE := Nat

/-- The C type `struct pf2_sample` as far as `session.c` reads it: the frame count `depth`
(a C `int`) and the frame array `cmes`. -/
structure pf2_sample where
  depth : Int
  cmes : List VALUE
deriving DecidableEq, Repr

instance : Inhabited pf2_sample := ⟨⟨0, []⟩⟩

/-- The C type `struct pf2_ringbuffer` as far as `pf2_session_dmark` reads it: `size`
slots, and the `int` indices `head` (next slot to read) and `tail` (next slot
to write). -/
structure pf2_ringbuffer where
  size : Int
  head : Int
  tail : Int
  samples : List pf2_sample
deriving DecidableEq, Repr

/-- State of a `pthread_rwlock_t`: free, held by one writer, or held by
`others + 1` readers. -/
inductive rwlock where
  | unlocked
  | wrlocked
  | rdlocked (others : Nat)
deriving DecidableEq, Repr

/-- The C type `struct timespec`. -/
structure timespec where
  tv_sec : Int
  tv_nsec : Int
deriving DecidableEq, Repr

/-- The C type `struct timeval`. -/
structure timeval where
  tv_sec : Int
  tv_usec : Int
deriving DecidableEq, Repr

/-- The C type `struct itimerspec`. -/
structure itimerspec where
  it_value : timespec
  it_interval : timespec
deriving DecidableEq, Repr

/-- The C type `struct itimerval`. -/
structure itimerval where
  it_value : timeval
  it_interval : timeval
deriving DecidableEq, Repr

/-- The C type `enum pf2_time_mode`. -/
inductive pf2_time_mode where
  | cpu_time
  | wall_time
deriving DecidableEq, Repr

/-- The C type `struct pf2_configuration` as far as `session.c` reads it. -/
structure pf2_configuration where
  interval_ms : Int
  time_mode : pf2_time_mode
deriving DecidableEq, Repr

/-- The C type `struct pf2_session`.  `samples` is the heap block behind the `samples`
pointer: its length is the number of elements the block really holds, which is
`samples_capacity` as long as no byte-size computation wrapped. -/
structure pf2_session where
  is_running : Bool
  is_marking : Bool
  rbuf : pf2_ringbuffer
  samples : List pf2_sample
  samples_index : Nat
  samples_capacity : Nat
  samples_lock : rwlock
  start_time_realtime : timespec
  start_time : timespec
  duration_ns : Nat
  configuration : pf2_configuration
deriving DecidableEq, Repr

/-- Number of values of `size_t` / `uint64_t`. -/
abbrev SIZE_MOD : Nat := 18446744073709551616

/-! ## Growable sample store -/

/-- Contents of a block after a successful `realloc` to `n` elements: the old
elements up to the smaller of the two sizes, the rest indeterminate (modelled
by the default sample). -/
def realloc_block (old : List pf2_sample) (n : Nat) : List pf2_sample :=
  old.take n ++ List.replicate (n - old.length) default

/-- What the allocator answers to a `realloc` call: a block of the requested
size; `NULL` with the old block left in place; or `NULL` after freeing the old
block, which is how glibc answers a request of zero bytes on a live block. -/
inductive alloc_answer where
  | granted
  | refused
  | released
deriving DecidableEq, Repr

/-- What `realloc` hands back: the new block, or `NULL` with the old block
still in place, or `NULL` with the old block gone. -/
inductive realloc_result where
  | moved (block : List pf2_sample)
  | null_kept
  | null_freed
deriving DecidableEq, Repr

/-- The libc call `realloc(ptr, bytes)` on a block of samples of `sz` bytes each.
A granted request is a block of `bytes` bytes, room for `bytes / sz` samples.
A refused request returns `NULL` and keeps the old block.  A request of zero
bytes may also return `NULL` after freeing the old block; for a request of
more than zero bytes that answer does not exist, and `NULL` keeps the block. -/
def realloc (sz : Nat) (answer : alloc_answer) (old : List pf2_sample) (bytes : Nat) :
    realloc_result :=
  match answer with
  | alloc_answer.granted => realloc_result.moved (realloc_block old (bytes / sz))
  | alloc_answer.refused => realloc_result.null_kept
  | alloc_answer.released =>
    if bytes = 0 then realloc_result.null_freed else realloc_result.null_kept

/-- The function `ensure_sample_capacity` (session.c 237-258).  `sz` is
`sizeof(struct pf2_sample)`, `answer` the outcome of the `realloc` call if one
is made.  On `NULL` the function returns `false` without touching the session;
when the allocator freed the old block on the way, `session->samples` is left
dangling and nothing is stored behind it any more (the empty block). -/
def ensure_sample_capacity (sz : Nat) (answer : alloc_answer) (session : pf2_session) :
    Bool × pf2_session :=
  if session.samples_index < session.samples_capacity then
    (true, session)
  else
    let new_capacity := (session.samples_capacity * 2) % SIZE_MOD
    match realloc sz answer session.samples ((new_capacity * sz) % SIZE_MOD) with
    | realloc_result.null_kept => (false, session)
    | realloc_result.null_freed => (false, { session with samples := [] })
    | realloc_result.moved new_samples =>
      (true, { session with samples := new_samples, samples_capacity := new_capacity })

/-- Why the drain loop of the collector was left. -/
inductive drain_exit where
  | empty
  | growth_failed
deriving DecidableEq, Repr

/-- The drain loop of `sample_collector_thread` (session.c 159-170):
`while (pop(rbuf, &sample)) { if (!ensure_sample_capacity(session)) break;
samples[samples_index++] = sample; }`.

`pop` is `pf2_ringbuffer_pop`; `oracle i` is the allocator's answer in the
`i`-th iteration.  A store outside the block is undefined behaviour in C; the
model leaves the block as it is (`List.set` past the end) and still advances
`samples_index`. -/
def drain (pop : pf2_ringbuffer → Option (pf2_sample × pf2_ringbuffer)) (sz : Nat) :
    Nat → (Nat → alloc_answer) → pf2_session → Option (drain_exit × pf2_session)
  | 0, _, _ => none
  | fuel + 1, oracle, session =>
    match pop session.rbuf with
    | none => some (drain_exit.empty, session)
    | some (sample, rb) =>
      match ensure_sample_capacity sz (oracle 0) { session with rbuf := rb } with
      | (false, s1) => some (drain_exit.growth_failed, s1)
      | (true, s1) =>
        drain pop sz fuel (fun i => oracle (i + 1))
          { s1 with
            samples := s1.samples.set s1.samples_index sample
            samples_index := (s1.samples_index + 1) % SIZE_MOD }

/-- The session after the first `k` iterations of the drain loop when each of
them pops a sample and appends it; `none` when one of them finds the buffer
empty or fails to grow the store. -/
def drain_appended (pop : pf2_ringbuffer → Option (pf2_sample × pf2_ringbuffer)) (sz : Nat) :
    Nat → (Nat → alloc_answer) → pf2_session → Option pf2_session
  | 0, _, session => some session
  | k + 1, oracle, session =>
    match pop session.rbuf with
    | none => none
    | some (sample, rb) =>
      match ensure_sample_capacity sz (oracle 0) { session with rbuf := rb } with
      | (false, _) => none
      | (true, s1) =>
        drain_appended pop sz k (fun i => oracle (i + 1))
          { s1 with
            samples := s1.samples.set s1.samples_index sample
            samples_index := (s1.samples_index + 1) % SIZE_MOD }

/-! ## Ring buffer operations -/

/-- Modelled from the spec: `pf2_ringbuffer_pop`, whose source (`ringbuffer.c`)
is not part of this development.  The buffer is empty when `head == tail`;
otherwise the slot at `head` is copied out and `head` advances circularly. -/
def pf2_ringbuffer_pop (rb : pf2_ringbuffer) : Option (pf2_sample × pf2_ringbuffer) :=
  if rb.head = rb.tail then none
  else some (rb.samples.getD rb.head.toNat default,
             { rb with head := (rb.head + 1).tmod rb.size })

/-- Modelled from the spec: `pf2_ringbuffer_push`, whose source (`ringbuffer.c`)
is not part of this development.  The buffer is full when advancing `tail`
would reach `head`; a push on a full buffer returns `false` and leaves the
buffer unchanged, otherwise the sample is written at `tail` and `tail`
advances circularly. -/
def pf2_ringbuffer_push (rb : pf2_ringbuffer) (sample : pf2_sample) :
    Bool × pf2_ringbuffer :=
  if (rb.tail + 1).tmod rb.size = rb.head then (false, rb)
  else (true, { rb with
                samples := rb.samples.set rb.tail.toNat sample
                tail := (rb.tail + 1).tmod rb.size })

/-- Successive calls of `pop` starting at `rb` return exactly the samples `ss`
and leave the buffer `rb_end`. -/
def pops (pop : pf2_ringbuffer → Option (pf2_sample × pf2_ringbuffer)) :
    pf2_ringbuffer → List pf2_sample → pf2_ringbuffer → Prop
  | rb, [], rb_end => rb_end = rb
  | rb, x :: ss, rb_end => ∃ rb1, pop rb = some (x, rb1) ∧ pops pop rb1 ss rb_end

/-- The buffer `rb` yields exactly the samples `ss`: popping returns them in
this order and then reports the buffer empty. -/
def yields (pop : pf2_ringbuffer → Option (pf2_sample × pf2_ringbuffer))
    (rb : pf2_ringbuffer) (ss : List pf2_sample) : Prop :=
  ∃ rb_end, pops pop rb ss rb_end ∧ pop rb_end = none

/-! ## Reader/writer lock (POSIX semantics) -/

/-- The errno value `EPERM`. -/
def EPERM : Nat := 1

/-- The errno value `EBUSY`. -/
def EBUSY : Nat := 16

/-- The call `pthread_rwlock_trywrlock`: succeeds (0) on a free lock, `EBUSY`
otherwise. -/
def pthread_rwlock_trywrlock : rwlock → Nat × rwlock
  | rwlock.unlocked => (0, rwlock.wrlocked)
  | l => (EBUSY, l)

/-- The call `pthread_rwlock_rdlock`: `none` when a writer holds the lock (the
caller waits). -/
def pthread_rwlock_rdlock : rwlock → Option (Nat × rwlock)
  | rwlock.unlocked => some (0, rwlock.rdlocked 0)
  | rwlock.rdlocked n => some (0, rwlock.rdlocked (n + 1))
  | rwlock.wrlocked => none

/-- The call `pthread_rwlock_unlock`: releases one hold, `EPERM` on a lock that
is not held. -/
def pthread_rwlock_unlock : rwlock → Nat × rwlock
  | rwlock.wrlocked => (0, rwlock.unlocked)
  | rwlock.rdlocked 0 => (0, rwlock.unlocked)
  | rwlock.rdlocked (n + 1) => (0, rwlock.rdlocked n)
  | rwlock.unlocked => (EPERM, rwlock.unlocked)

/-! ## Collector thread -/

/-- Where control is after one pass through the `while` loop of
`sample_collector_thread`: back at the loop test after the sleep, out of the
loop (`return NULL`), or in `abort()`. -/
inductive control where
  | sleeping
  | returned
  | aborted
deriving DecidableEq, Repr

/-- Result of one pass through the collector loop; `exit` is `none` when the
drain loop was not entered. -/
structure cycle_result where
  ctl : control
  exit : Option drain_exit
  session : pf2_session
deriving DecidableEq, Repr

/-- One pass of `while (session->is_running == true) { ... }` in
`sample_collector_thread` (session.c 152-181): try the write lock (skip the
cycle on `EBUSY`, abort on any other error), drain, unlock (abort on error),
sleep. -/
def sample_collector_thread (pop : pf2_ringbuffer → Option (pf2_sample × pf2_ringbuffer))
    (sz fuel : Nat) (oracle : Nat → alloc_answer) (session : pf2_session) : Option cycle_result :=
  if session.is_running = true then
    match pthread_rwlock_trywrlock session.samples_lock with
    | (err, l) =>
      if err ≠ 0 then
        if err ≠ EBUSY then some ⟨control.aborted, none, session⟩
        else some ⟨control.sleeping, none, session⟩
      else
        match drain pop sz fuel oracle { session with samples_lock := l } with
        | none => none
        | some (e, s1) =>
          match pthread_rwlock_unlock s1.samples_lock with
          | (rc, l1) =>
            if rc ≠ 0 then some ⟨control.aborted, some e, s1⟩
            else some ⟨control.sleeping, some e, { s1 with samples_lock := l1 }⟩
  else some ⟨control.returned, none, session⟩

/-! ## Signal handler -/

/-- Calls the signal handler makes into the rest of the profiler. -/
inductive handler_call where
  | capture
  | push
deriving DecidableEq, Repr

/-- The function `sigprof_handler` (session.c 187-233).  `capture` is what
`pf2_sample_capture` returns if it is called (`none` for `false`), `push` is
`pf2_ringbuffer_push`.  The handler returns `void`; the result is the session
afterwards and the calls made, in order. -/
def sigprof_handler (push : pf2_ringbuffer → pf2_sample → Bool × pf2_ringbuffer)
    (capture : Option pf2_sample) (session : pf2_session) :
    pf2_session × List handler_call :=
  if session.is_marking = true then (session, [])
  else
    match capture with
    | none => (session, [handler_call.capture])
    | some sample =>
      match push session.rbuf sample with
      | (false, rb) => ({ session with rbuf := rb }, [handler_call.capture, handler_call.push])
      | (true, rb) => ({ session with rbuf := rb }, [handler_call.capture, handler_call.push])

/-! ## GC mark callback -/

/-- The inner loop `for (int i = 0; i < sample->depth; i++) rb_gc_mark(sample->cmes[i])`:
the references handed to `rb_gc_mark`, in order. -/
def mark_sample_from (sample : pf2_sample) : Nat → Int → List VALUE
  | 0, _ => []
  | n + 1, i =>
    if i < sample.depth then sample.cmes.getD i.toNat 0 :: mark_sample_from sample n (i + 1)
    else []

/-- The inner loop started at `i = 0`; it makes at most `depth` passes. -/
def mark_sample (sample : pf2_sample) : List VALUE :=
  mark_sample_from sample sample.depth.toNat 0

/-- The frame identifiers `cmes[0 .. depth-1]` of a sample: the specification
of what marking one sample passes to the host. -/
def frame_ids (sample : pf2_sample) : List VALUE :=
  (List.range sample.depth.toNat).map (fun i => sample.cmes.getD i 0)

/-- The ring-buffer walk of `pf2_session_dmark` (session.c 365-372) on the local
copies `head` and `tail`: the slots visited and the references marked.  A read
outside the slot array is undefined in C; the model reads the default sample,
whose depth is 0. -/
def dmark_ring (rbuf : pf2_ringbuffer) : Nat → Int → Int → Option (List Int × List VALUE)
  | 0, _, _ => none
  | fuel + 1, head, tail =>
    if head ≠ tail then
      match dmark_ring rbuf fuel ((head + 1).tmod rbuf.size) tail with
      | none => none
      | some (slots, marks) =>
        some (head :: slots, mark_sample (rbuf.samples.getD head.toNat default) ++ marks)
    else some ([], [])

/-- The store walk of `pf2_session_dmark` (session.c 378-383).  A read past the
block is undefined in C; the model reads the default sample, whose depth is 0. -/
def dmark_store (session : pf2_session) : List VALUE :=
  (List.range session.samples_index).flatMap
    (fun i => mark_sample (session.samples.getD i default))

/-- How a call of `pf2_session_dmark` ends: it returns, it waits for the write
lock holder, or it calls `abort()`. -/
inductive dmark_exit where
  | returned
  | waiting
  | aborted
deriving DecidableEq, Repr

/-- Result of `pf2_session_dmark`: the session afterwards, the ring slots read,
and every reference passed to `rb_gc_mark`, in order. -/
structure dmark_result where
  exit : dmark_exit
  session : pf2_session
  slots : List Int
  marked : List VALUE
deriving DecidableEq, Repr

/-- The function `pf2_session_dmark` (session.c 352-390). -/
def pf2_session_dmark (fuel : Nat) (session : pf2_session) : Option dmark_result :=
  let s1 := { session with is_marking := true }
  match dmark_ring s1.rbuf fuel s1.rbuf.head s1.rbuf.tail with
  | none => none
  | some (slots, ring_marks) =>
    match pthread_rwlock_rdlock s1.samples_lock with
    | none => some ⟨dmark_exit.waiting, s1, slots, ring_marks⟩
    | some (rc, l) =>
      if rc ≠ 0 then some ⟨dmark_exit.aborted, s1, slots, ring_marks⟩
      else
        let s2 := { s1 with samples_lock := l }
        let store_marks := dmark_store s2
        match pthread_rwlock_unlock s2.samples_lock with
        | (rc2, l2) =>
          if rc2 ≠ 0 then some ⟨dmark_exit.aborted, s2, slots, ring_marks ++ store_marks⟩
          else
            some ⟨dmark_exit.returned, { s2 with samples_lock := l2, is_marking := false },
                  slots, ring_marks ++ store_marks⟩

/-- The slots between a snapshot `head` (inclusive) and `tail` (exclusive) of a
ring of `size` slots, in circular order: the specification of the walk. -/
def ring_snapshot_slots (size head tail : Int) : List Int :=
  (List.range ((tail - head) % size).toNat).map (fun (k : Nat) => (head + (k : Int)) % size)

/-! ## Session lifecycle -/

/-- Resources of the process that `start` and `stop` acquire and release
outside the session structure: the collector thread, the signal dispositions,
the kernel timer behind `session->timer` (or the interval timer of the
`setitimer` fallback) and the fallback's `global_current_session` pointer. -/
structure process where
  collector_running : Bool
  sigprof_installed : Bool
  sigalrm_installed : Bool
  timer_created : Bool
  timer_armed : Bool
  global_current_session : Bool
deriving DecidableEq, Repr

/-- A session together with the process resources around it. -/
structure world where
  session : pf2_session
  proc : process
deriving DecidableEq, Repr

/-- Outcome of every library call that `start` and `stop` check: `true` when
the call succeeds. -/
structure syscalls where
  pthread_create_ok : Bool
  sigaction_sigprof_ok : Bool
  sigaction_sigalrm_ok : Bool
  timer_create_ok : Bool
  timer_settime_ok : Bool
  setitimer_ok : Bool
  timer_delete_ok : Bool
deriving DecidableEq, Repr

/-- The `rb_raise` calls of `start` and `stop`, by message: "Failed to spawn
sample collector thread", "Failed to install SIGPROF handler", "Failed to
install SIGALRM handler", "Failed to create timer", "Failed to start timer",
"Failed to delete timer", "Failed to stop timer". -/
inductive session_error where
  | spawn_failed
  | sigprof_handler_failed
  | sigalrm_handler_failed
  | timer_create_failed
  | timer_start_failed
  | timer_delete_failed
  | timer_stop_failed
deriving DecidableEq, Repr

/-- How a call from Ruby ends: with a value, or in `rb_raise`. -/
inductive call_result where
  | returned
  | raised (e : session_error)
deriving DecidableEq, Repr

/-- A `struct timespec` the kernel accepts as a timer value: non-negative, with
`0 ≤ tv_nsec < 10^9`. -/
def timespec_valid (t : timespec) : Bool :=
  decide (0 ≤ t.tv_sec) && decide (0 ≤ t.tv_nsec) && decide (t.tv_nsec < 1000000000)

/-- A `struct timeval` the kernel accepts as a timer value: non-negative, with
`0 ≤ tv_usec < 10^6`. -/
def timeval_valid (t : timeval) : Bool :=
  decide (0 ≤ t.tv_sec) && decide (0 ≤ t.tv_usec) && decide (t.tv_usec < 1000000)

/-- A product of two C `int`s as the usual targets compute it: reduced to the
32-bit two's complement range (the overflow itself is undefined in C). -/
def to_int32 (x : Int) : Int := (x + 2147483648) % 4294967296 - 2147483648

/-- The `struct itimerspec its` that `rb_pf2_session_start` builds (session.c
106-115).  `interval_ms` is an `int`, so the product `interval_ms * 1000000` is
an `int` product: it wraps from `interval_ms = 2148` on. -/
def start_itimerspec (configuration : pf2_configuration) : itimerspec :=
  { it_value := { tv_sec := 0, tv_nsec := to_int32 (configuration.interval_ms * 1000000) }
    it_interval := { tv_sec := 0, tv_nsec := to_int32 (configuration.interval_ms * 1000000) } }

/-- The `struct itimerval itv` that `rb_pf2_session_start` builds for the
`setitimer` fallback (session.c 125-134); the `int` product
`interval_ms * 1000` wraps from `interval_ms = 2147484` on. -/
def start_itimerval (configuration : pf2_configuration) : itimerval :=
  { it_value := { tv_sec := 0, tv_usec := to_int32 (configuration.interval_ms * 1000) }
    it_interval := { tv_sec := 0, tv_usec := to_int32 (configuration.interval_ms * 1000) } }

/-- The call `timer_settime(timer, 0, &its, NULL)`: fails (`none`) when the
kernel refuses (`ok = false`) or a time value is malformed (`EINVAL`);
otherwise the timer is armed unless `it_value` is zero. -/
def timer_settime (ok : Bool) (its : itimerspec) (p : process) : Option process :=
  if ok && timespec_valid its.it_value && timespec_valid its.it_interval then
    some { p with timer_armed := decide (its.it_value ≠ ⟨0, 0⟩) }
  else none

/-- The call `setitimer(which, &itv, NULL)`: fails (`none`) when the kernel
refuses or a time value is malformed; otherwise the interval timer is armed
unless `it_value` is zero. -/
def setitimer (ok : Bool) (itv : itimerval) (p : process) : Option process :=
  if ok && timeval_valid itv.it_value && timeval_valid itv.it_interval then
    some { p with timer_armed := decide (itv.it_value ≠ ⟨0, 0⟩) }
  else none

/-- The function `rb_pf2_session_start` (session.c 54-145).  `have_timer_create` selects the
`HAVE_TIMER_CREATE` build; `now_realtime` and `now` are what the two
`clock_gettime` calls read. -/
def rb_pf2_session_start (have_timer_create : Bool) (sys : syscalls)
    (now_realtime now : timespec) (w : world) : call_result × world :=
  let s1 := { w.session with
              is_running := true, start_time_realtime := now_realtime, start_time := now }
  if sys.pthread_create_ok = false then
    (call_result.raised session_error.spawn_failed, ⟨s1, w.proc⟩)
  else
    let p1 := { w.proc with collector_running := true }
    if sys.sigaction_sigprof_ok = false then
      (call_result.raised session_error.sigprof_handler_failed, ⟨s1, p1⟩)
    else
      let p2 := { p1 with sigprof_installed := true }
      if have_timer_create = true then
        if sys.timer_create_ok = false then
          (call_result.raised session_error.timer_create_failed, ⟨s1, p2⟩)
        else
          let p3 := { p2 with timer_created := true }
          match timer_settime sys.timer_settime_ok (start_itimerspec s1.configuration) p3 with
          | none => (call_result.raised session_error.timer_start_failed, ⟨s1, p3⟩)
          | some p4 => (call_result.returned, ⟨s1, p4⟩)
      else
        if s1.configuration.time_mode ≠ pf2_time_mode.cpu_time ∧
            sys.sigaction_sigalrm_ok = false then
          (call_result.raised session_error.sigalrm_handler_failed, ⟨s1, p2⟩)
        else
          let p3 := { p2 with
                      sigalrm_installed :=
                        p2.sigalrm_installed ||
                          decide (s1.configuration.time_mode ≠ pf2_time_mode.cpu_time)
                      global_current_session := true }
          match setitimer sys.setitimer_ok (start_itimerval s1.configuration) p3 with
          | none => (call_result.raised session_error.timer_start_failed, ⟨s1, p3⟩)
          | some p4 => (call_result.returned, ⟨s1, p4⟩)

/-- The cast `(uint64_t)x` of a signed 64-bit value. -/
def to_uint64 (x : Int) : Nat := (x % 18446744073709551616).toNat

/-- The expression `(uint64_t)t.tv_sec * 1000000000ULL + (uint64_t)t.tv_nsec`
of `rb_pf2_session_stop` (session.c 269-270), in `uint64_t` arithmetic. -/
def timespec_ns (t : timespec) : Nat :=
  (to_uint64 t.tv_sec * 1000000000 + to_uint64 t.tv_nsec) % SIZE_MOD

/-- The function `rb_pf2_session_stop` (session.c 260-300) up to the hand-over to the
serializer, which is outside this file: the duration, the timer, the collector
thread.  `end_time` is what `clock_gettime(CLOCK_MONOTONIC)` reads. -/
def rb_pf2_session_stop (have_timer_create : Bool) (sys : syscalls) (end_time : timespec)
    (w : world) : call_result × world :=
  let start_ns := timespec_ns w.session.start_time
  let end_ns := timespec_ns end_time
  let s1 := { w.session with duration_ns := (end_ns + SIZE_MOD - start_ns) % SIZE_MOD }
  if have_timer_create = true then
    if sys.timer_delete_ok = false then
      (call_result.raised session_error.timer_delete_failed, ⟨s1, w.proc⟩)
    else
      (call_result.returned,
        ⟨{ s1 with is_running := false },
         { w.proc with timer_created := false, timer_armed := false,
                       collector_running := false }⟩)
  else
    match setitimer sys.setitimer_ok ⟨⟨0, 0⟩, ⟨0, 0⟩⟩ w.proc with
    | none => (call_result.raised session_error.timer_stop_failed, ⟨s1, w.proc⟩)
    | some p1 =>
      (call_result.returned,
        ⟨{ s1 with is_running := false },
         { p1 with global_current_session := false, collector_running := false }⟩)

/-! ## Example states -/

/-- A three-slot ring buffer holding nothing. -/
def example_rbuf : pf2_ringbuffer :=
  { size := 3, head := 0, tail := 0, samples := [default, default, default] }

/-- A running session with an empty ring buffer and a store of `cap` slots, the
first `idx` of them in use. -/
def example_session (idx cap : Nat) (block : List pf2_sample) : pf2_session :=
  { is_running := true
    is_marking := false
    rbuf := example_rbuf
    samples := block
    samples_index := idx
    samples_capacity := cap
    samples_lock := rwlock.unlocked
    start_time_realtime := ⟨0, 0⟩
    start_time := ⟨0, 0⟩
    duration_ns := 0
    configuration := ⟨10, pf2_time_mode.wall_time⟩ }

/-- First example sample. -/
def sample_a : pf2_sample := ⟨2, [11, 12]⟩

/-- Second example sample. -/
def sample_b : pf2_sample := ⟨1, [21]⟩

/-- Third example sample. -/
def sample_c : pf2_sample := ⟨3, [31, 32, 33]⟩

/-- The session `s` with the samples `xs` waiting in its ring buffer (one spare
slot, as the buffer is full one short of its size). -/
def with_pending (s : pf2_session) (xs : List pf2_sample) : pf2_session :=
  { s with rbuf := { size := (xs.length : Int) + 1, head := 0, tail := (xs.length : Int)
                     samples := xs ++ [default] } }

/-- An allocator that grants every request. -/
def always_ok : Nat → alloc_answer := fun _ => alloc_answer.granted

/-- An allocator that refuses every request. -/
def never_ok : Nat → alloc_answer := fun _ => alloc_answer.refused

/-- Nine samples: enough to take a store of capacity 2 through three doublings. -/
def nine_samples : List pf2_sample :=
  [sample_a, sample_b, sample_c, sample_b, sample_a, sample_c, sample_c, sample_a, sample_b]

/-- The session of the failed-growth example at the head of the failing
iteration: the write lock is held, the first waiting sample has been appended
and the store is full. -/
def example_full_session : pf2_session :=
  { with_pending (example_session 2 2 [sample_c, sample_a]) [sample_a, sample_b, sample_c] with
    samples_lock := rwlock.wrlocked
    rbuf := { size := 4, head := 1, tail := 3
              samples := [sample_a, sample_b, sample_c, default] } }

/-- A session mid-run: two samples wait in a four-slot ring buffer that has
wrapped around (slots 3 and 0), two more are in the store. -/
def example_marking_session : pf2_session :=
  { example_session 2 4 [sample_a, sample_b, default, default] with
    rbuf := { size := 4, head := 3, tail := 1
              samples := [sample_b, default, default, sample_c] } }

/-- A process in which nothing of the profiler is active. -/
def idle_process : process :=
  { collector_running := false, sigprof_installed := false, sigalrm_installed := false
    timer_created := false, timer_armed := false, global_current_session := false }

/-- Every library call succeeds. -/
def all_ok : syscalls :=
  { pthread_create_ok := true, sigaction_sigprof_ok := true, sigaction_sigalrm_ok := true
    timer_create_ok := true, timer_settime_ok := true, setitimer_ok := true
    timer_delete_ok := true }

/-- An allocated session that has not been started, with the given
configuration. -/
def idle_world (configuration : pf2_configuration) : world :=
  { session := { example_session 0 2 [default, default] with
                 is_running := false, configuration := configuration }
    proc := idle_process }

/-- A session whose three-slot ring buffer is full (two samples waiting). -/
def example_full_ring_session : pf2_session :=
  { example_session 0 2 [default, default] with
    rbuf := { size := 3, head := 0, tail := 2, samples := [sample_a, sample_b, default] } }

/-- A started session whose monotonic start time is 100.999999999 s. -/
def example_started_world : world :=
  { session := { example_session 0 2 [default, default] with start_time := ⟨100, 999999999⟩ }
    proc := { idle_process with
              collector_running := true, sigprof_installed := true
              timer_created := true, timer_armed := true } }

/-! ## Store growth: lemmas -/

theorem ensure_of_lt (sz : Nat) (answer : alloc_answer) (s : pf2_session)
    (h : s.samples_index < s.samples_capacity) :
    ensure_sample_capacity sz answer s = (true, s) := by
  simp [ensure_sample_capacity, h]

theorem ensure_grow_fail (sz : Nat) (s : pf2_session)
    (h : ¬ s.samples_index < s.samples_capacity) :
    ensure_sample_capacity sz alloc_answer.refused s = (false, s) := by
  simp [ensure_sample_capacity, h, realloc]

theorem ensure_grow_released (sz : Nat) (s : pf2_session)
    (h : ¬ s.samples_index < s.samples_capacity) :
    ensure_sample_capacity sz alloc_answer.released s = (false, s) ∨
    ensure_sample_capacity sz alloc_answer.released s = (false, { s with samples := [] }) := by
  simp only [ensure_sample_capacity, h, if_false, realloc]
  split_ifs
  · exact Or.inr rfl
  · exact Or.inl rfl

theorem ensure_grow_ok (sz : Nat) (s : pf2_session)
    (h : ¬ s.samples_index < s.samples_capacity) :
    ensure_sample_capacity sz alloc_answer.granted s =
      (true, { s with
               samples := realloc_block s.samples
                 ((((s.samples_capacity * 2) % SIZE_MOD) * sz) % SIZE_MOD / sz)
               samples_capacity := (s.samples_capacity * 2) % SIZE_MOD }) := by
  simp [ensure_sample_capacity, h, realloc]

/-! ## Drain loop: lemmas -/

theorem drain_succ_none (pop : pf2_ringbuffer → Option (pf2_sample × pf2_ringbuffer))
    (sz fuel : Nat) (oracle : Nat → alloc_answer) (s : pf2_session) (h : pop s.rbuf = none) :
    drain pop sz (fuel + 1) oracle s = some (drain_exit.empty, s) := by
  simp [drain, h]

theorem drain_succ_some (pop : pf2_ringbuffer → Option (pf2_sample × pf2_ringbuffer))
    (sz fuel : Nat) (oracle : Nat → alloc_answer) (s : pf2_session) (x : pf2_sample)
    (rb : pf2_ringbuffer) (h : pop s.rbuf = some (x, rb)) :
    drain pop sz (fuel + 1) oracle s =
      match ensure_sample_capacity sz (oracle 0) { s with rbuf := rb } with
      | (false, s1) => some (drain_exit.growth_failed, s1)
      | (true, s1) =>
        drain pop sz fuel (fun i => oracle (i + 1))
          { s1 with
            samples := s1.samples.set s1.samples_index x
            samples_index := (s1.samples_index + 1) % SIZE_MOD } := by
  simp [drain, h]

/-- Field invariant of the drain loop: from a non-empty store that is not
over-full, and as long as no doubling can wrap, every exit of the loop leaves
`samples_index ≤ samples_capacity` and a capacity that is the old one times a
power of two. -/
theorem drain_fields (pop : pf2_ringbuffer → Option (pf2_sample × pf2_ringbuffer))
    (sz : Nat) :
    ∀ (ss : List pf2_sample) (fuel : Nat) (oracle : Nat → alloc_answer) (s : pf2_session),
      yields pop s.rbuf ss → ss.length < fuel →
      s.samples_index ≤ s.samples_capacity → 0 < s.samples_capacity →
      s.samples_index + ss.length ≤ 9223372036854775808 →
      ∃ e s1, drain pop sz fuel oracle s = some (e, s1) ∧
        s1.samples_index ≤ s1.samples_capacity ∧
        ∃ k : Nat, s1.samples_capacity = s.samples_capacity * 2 ^ k := by
  intro ss
  induction ss with
  | nil =>
    intro fuel oracle s hy hf hle hpos _
    obtain ⟨rb_end, hp, hn⟩ := hy
    simp only [pops] at hp
    subst hp
    obtain ⟨f, rfl⟩ : ∃ f, fuel = f + 1 := ⟨fuel - 1, by simp at hf; omega⟩
    exact ⟨drain_exit.empty, s, drain_succ_none pop sz f oracle s hn, hle, 0, by simp⟩
  | cons x t ih =>
    intro fuel oracle s hy hf hle hpos hb
    obtain ⟨rb_end, hp, hn⟩ := hy
    simp only [pops] at hp
    obtain ⟨rb1, hpop, hrest⟩ := hp
    simp only [List.length_cons] at hf hb
    obtain ⟨f, rfl⟩ : ∃ f, fuel = f + 1 := ⟨fuel - 1, by omega⟩
    rw [drain_succ_some pop sz f oracle s x rb1 hpop]
    by_cases hlt : s.samples_index < s.samples_capacity
    · rw [ensure_of_lt sz (oracle 0) { s with rbuf := rb1 } hlt]
      simp only
      have hmod : (s.samples_index + 1) % SIZE_MOD = s.samples_index + 1 :=
        Nat.mod_eq_of_lt (by simp only [SIZE_MOD]; omega)
      rw [hmod]
      exact ih f (fun i => oracle (i + 1)) _ ⟨rb_end, hrest, hn⟩ (by omega)
        (by simp only; omega) hpos (by simp only; omega)
    · cases hok : oracle 0 with
      | refused =>
        rw [ensure_grow_fail sz { s with rbuf := rb1 } hlt]
        exact ⟨drain_exit.growth_failed, _, rfl, hle, 0, by simp⟩
      | released =>
        rcases ensure_grow_released sz { s with rbuf := rb1 } hlt with h | h
        · rw [h]
          exact ⟨drain_exit.growth_failed, _, rfl, hle, 0, by simp⟩
        · rw [h]
          exact ⟨drain_exit.growth_failed, _, rfl, hle, 0, by simp⟩
      | granted =>
        rw [ensure_grow_ok sz { s with rbuf := rb1 } hlt]
        simp only
        have hcap : (s.samples_capacity * 2) % SIZE_MOD = s.samples_capacity * 2 :=
          Nat.mod_eq_of_lt (by simp only [SIZE_MOD]; omega)
        have hmod : (s.samples_index + 1) % SIZE_MOD = s.samples_index + 1 :=
          Nat.mod_eq_of_lt (by simp only [SIZE_MOD]; omega)
        rw [hcap, hmod]
        obtain ⟨e, s1, hd, hle1, k, hk⟩ :=
          ih f (fun i => oracle (i + 1))
            { s with
              rbuf := rb1
              samples := (realloc_block s.samples
                (s.samples_capacity * 2 * sz % SIZE_MOD / sz)).set s.samples_index x
              samples_capacity := s.samples_capacity * 2
              samples_index := s.samples_index + 1 }
            ⟨rb_end, hrest, hn⟩ (by omega) (by simp only; omega) (by simp only; omega)
            (by simp only; omega)
        refine ⟨e, s1, hd, hle1, k + 1, ?_⟩
        rw [hk]
        simp only [pow_succ]
        ring

theorem take_set_succ {α : Type} (l : List α) (i : Nat) (x : α) (h : i < l.length) :
    (l.set i x).take (i + 1) = l.take i ++ [x] := by
  induction l generalizing i with
  | nil => simp at h
  | cons a t ih =>
    cases i with
    | zero => simp
    | succ j =>
      simp only [List.length_cons] at h
      simp [ih j (by omega)]

theorem realloc_block_double (l : List pf2_sample) :
    realloc_block l (l.length * 2) = l ++ List.replicate l.length default := by
  unfold realloc_block
  rw [List.take_of_length_le (by omega)]
  congr 2
  omega

/-- Content invariant of the drain loop: on a well-formed store (the block
holds `samples_capacity` elements, of which `samples_index` are in use), when
every reallocation is granted and no size computation wraps, the loop appends
exactly the samples the ring buffer yields, in order, behind the old ones. -/
theorem drain_contents (pop : pf2_ringbuffer → Option (pf2_sample × pf2_ringbuffer))
    (sz : Nat) (hsz : 0 < sz) :
    ∀ (ss : List pf2_sample) (fuel : Nat) (oracle : Nat → alloc_answer) (s : pf2_session),
      yields pop s.rbuf ss → ss.length < fuel →
      (∀ i, i < ss.length → oracle i = alloc_answer.granted) →
      s.samples.length = s.samples_capacity →
      s.samples_index ≤ s.samples_capacity → 0 < s.samples_capacity →
      2 * ((s.samples_index + ss.length) * sz) ≤ SIZE_MOD →
      ∃ s1, drain pop sz fuel oracle s = some (drain_exit.empty, s1) ∧
        s1.samples_index = s.samples_index + ss.length ∧
        s1.samples.take s1.samples_index = s.samples.take s.samples_index ++ ss ∧
        s1.samples.length = s1.samples_capacity ∧
        s1.samples_index ≤ s1.samples_capacity := by
  intro ss
  induction ss with
  | nil =>
    intro fuel oracle s hy hf _ hlen hle _ _
    obtain ⟨rb_end, hp, hn⟩ := hy
    simp only [pops] at hp
    subst hp
    obtain ⟨f, rfl⟩ : ∃ f, fuel = f + 1 := ⟨fuel - 1, by simp at hf; omega⟩
    exact ⟨s, drain_succ_none pop sz f oracle s hn, by simp, by simp, hlen, hle⟩
  | cons x t ih =>
    intro fuel oracle s hy hf hor hlen hle hpos hb
    obtain ⟨rb_end, hp, hn⟩ := hy
    simp only [pops] at hp
    obtain ⟨rb1, hpop, hrest⟩ := hp
    simp only [List.length_cons] at hf hb hor
    obtain ⟨f, rfl⟩ : ∃ f, fuel = f + 1 := ⟨fuel - 1, by omega⟩
    have hexp : (s.samples_index + (t.length + 1)) * sz =
        s.samples_index * sz + t.length * sz + sz := by ring
    have hexp2 : (s.samples_index + 1 + t.length) * sz =
        s.samples_index * sz + t.length * sz + sz := by ring
    have hidx : s.samples_index ≤ s.samples_index * sz := Nat.le_mul_of_pos_right _ hsz
    have hmod : (s.samples_index + 1) % SIZE_MOD = s.samples_index + 1 :=
      Nat.mod_eq_of_lt (by simp only [SIZE_MOD] at hb ⊢; omega)
    have hor1 : ∀ i, i < t.length → (fun i => oracle (i + 1)) i = alloc_answer.granted :=
      fun i hi => hor (i + 1) (by omega)
    rw [drain_succ_some pop sz f oracle s x rb1 hpop]
    by_cases hlt : s.samples_index < s.samples_capacity
    · rw [ensure_of_lt sz (oracle 0) { s with rbuf := rb1 } hlt]
      simp only
      rw [hmod]
      obtain ⟨s1, hd, hi1, ht1, hl1, hle1⟩ :=
        ih f (fun i => oracle (i + 1))
          { s with
            rbuf := rb1
            samples := s.samples.set s.samples_index x
            samples_index := s.samples_index + 1 }
          ⟨rb_end, hrest, hn⟩ (by omega) hor1 (by simpa using hlen) (by simp only; omega)
          hpos (by simp only; omega)
      refine ⟨s1, hd, by rw [hi1]; simp only [List.length_cons]; omega, ?_, hl1, hle1⟩
      rw [ht1]
      simp only
      rw [take_set_succ _ _ _ (by omega)]
      simp
    · have hfull : s.samples_index = s.samples_capacity := by omega
      have hok : oracle 0 = alloc_answer.granted := hor 0 (by omega)
      rw [hok, ensure_grow_ok sz { s with rbuf := rb1 } hlt]
      simp only
      have hcapsz : s.samples_capacity * 2 * sz < SIZE_MOD := by
        have : s.samples_capacity * 2 * sz = 2 * (s.samples_index * sz) := by
          rw [hfull]; ring
        simp only [SIZE_MOD] at hb ⊢
        omega
      have hcap2 : s.samples_capacity * 2 < SIZE_MOD :=
        lt_of_le_of_lt (Nat.le_mul_of_pos_right _ hsz) hcapsz
      rw [Nat.mod_eq_of_lt hcap2, Nat.mod_eq_of_lt hcapsz, Nat.mul_div_cancel _ hsz, hmod,
        ← hlen, realloc_block_double]
      obtain ⟨s1, hd, hi1, ht1, hl1, hle1⟩ :=
        ih f (fun i => oracle (i + 1))
          { s with
            rbuf := rb1
            samples := (s.samples ++ List.replicate s.samples.length default).set
              s.samples_index x
            samples_capacity := s.samples.length * 2
            samples_index := s.samples_index + 1 }
          ⟨rb_end, hrest, hn⟩ (by omega) hor1 (by simp; omega) (by simp only; omega)
          (by simp only; omega) (by simp only; omega)
      refine ⟨s1, hd, by rw [hi1]; simp only [List.length_cons]; omega, ?_, hl1, hle1⟩
      rw [ht1]
      simp only
      rw [take_set_succ _ _ _ (by simp; omega), List.take_append_of_le_length (by omega)]
      simp

theorem ensure_keeps_control (sz : Nat) (answer : alloc_answer) (s : pf2_session) :
    (ensure_sample_capacity sz answer s).2.samples_lock = s.samples_lock ∧
    (ensure_sample_capacity sz answer s).2.is_running = s.is_running ∧
    (ensure_sample_capacity sz answer s).2.rbuf = s.rbuf := by
  by_cases h : s.samples_index < s.samples_capacity
  · rw [ensure_of_lt sz answer s h]
    simp
  · cases answer
    · rw [ensure_grow_ok sz s h]
      simp
    · rw [ensure_grow_fail sz s h]
      simp
    · rcases ensure_grow_released sz s h with h1 | h1 <;> rw [h1] <;> simp

/-- The appending iterations of the drain loop touch neither the lock nor the
running flag. -/
theorem drain_appended_keeps_control
    (pop : pf2_ringbuffer → Option (pf2_sample × pf2_ringbuffer)) (sz : Nat) :
    ∀ (k : Nat) (oracle : Nat → alloc_answer) (s t : pf2_session),
      drain_appended pop sz k oracle s = some t →
      t.samples_lock = s.samples_lock ∧ t.is_running = s.is_running := by
  intro k
  induction k with
  | zero =>
    intro oracle s t h
    simp only [drain_appended, Option.some.injEq] at h
    subst h
    exact ⟨rfl, rfl⟩
  | succ k ih =>
    intro oracle s t h
    simp only [drain_appended] at h
    cases hpop : pop s.rbuf with
    | none => simp [hpop] at h
    | some p =>
      obtain ⟨x, rb⟩ := p
      simp only [hpop] at h
      have hk := ensure_keeps_control sz (oracle 0) { s with rbuf := rb }
      cases he : ensure_sample_capacity sz (oracle 0) { s with rbuf := rb } with
      | mk b s1 =>
        rw [he] at h hk
        cases b
        · simp at h
        · simp only at h
          obtain ⟨h1, h2⟩ := ih _ _ _ h
          simp only at h1 h2 hk
          exact ⟨by rw [h1, hk.1], by rw [h2, hk.2.1]⟩

/-- After `k` appending iterations the drain loop continues from the session
they produced, with the rest of the fuel and of the allocator's answers. -/
theorem drain_after_appended
    (pop : pf2_ringbuffer → Option (pf2_sample × pf2_ringbuffer)) (sz : Nat) :
    ∀ (k fuel : Nat) (oracle : Nat → alloc_answer) (s t : pf2_session),
      drain_appended pop sz k oracle s = some t →
      drain pop sz (k + fuel) oracle s = drain pop sz fuel (fun i => oracle (i + k)) t := by
  intro k
  induction k with
  | zero =>
    intro fuel oracle s t h
    simp only [drain_appended, Option.some.injEq] at h
    subst h
    simp
  | succ k ih =>
    intro fuel oracle s t h
    simp only [drain_appended] at h
    cases hpop : pop s.rbuf with
    | none => simp [hpop] at h
    | some p =>
      obtain ⟨x, rb⟩ := p
      simp only [hpop] at h
      have hfuel : k + 1 + fuel = (k + fuel) + 1 := by omega
      rw [hfuel, drain_succ_some pop sz (k + fuel) oracle s x rb hpop]
      cases he : ensure_sample_capacity sz (oracle 0) { s with rbuf := rb } with
      | mk b s1 =>
        rw [he] at h
        cases b
        · simp at h
        · simp only at h ⊢
          rw [ih fuel _ _ t h]
          rfl

/-! ## Mark callback: lemmas -/

theorem mark_sample_from_eq (sample : pf2_sample) :
    ∀ (n j : Nat), j + n = sample.depth.toNat →
      mark_sample_from sample n (j : Int) =
        (List.range n).map (fun i => sample.cmes.getD (j + i) 0) := by
  intro n
  induction n with
  | zero => intro j _; simp [mark_sample_from]
  | succ n ih =>
    intro j hj
    have hlt : (j : Int) < sample.depth := by omega
    have hnext : ((j : Int) + 1) = ((j + 1 : Nat) : Int) := by push_cast; rfl
    simp only [mark_sample_from, hlt, if_true, Int.toNat_ofNat]
    rw [hnext, ih (j + 1) (by omega), List.range_succ_eq_map, List.map_cons, List.map_map]
    simp only [Nat.add_zero, List.cons.injEq, true_and]
    apply List.map_congr_left
    intro i _
    simp only [Function.comp, Nat.succ_eq_add_one]
    congr 1
    omega

/-- Marking one sample passes exactly its frame identifiers `cmes[0 .. depth-1]`. -/
theorem mark_sample_eq (sample : pf2_sample) : mark_sample sample = frame_ids sample := by
  unfold mark_sample frame_ids
  have h := mark_sample_from_eq sample sample.depth.toNat 0 (by simp)
  simpa using h

theorem ring_next (m h : Int) (h0 : 0 ≤ h) (h1 : h < m) :
    (h + 1).tmod m = if h + 1 = m then 0 else h + 1 := by
  rw [Int.tmod_eq_emod (by omega) (by omega)]
  split
  · next he => rw [he]; exact Int.emod_self
  · exact Int.emod_eq_of_lt (by omega) (by omega)

theorem ring_gap (m h t : Int) (h0 : 0 ≤ h) (h1 : h < m) (t0 : 0 ≤ t)
    (t1 : t < m) : (t - h) % m = if h ≤ t then t - h else t - h + m := by
  split
  · exact Int.emod_eq_of_lt (by omega) (by omega)
  · rw [← Int.add_emod_self (a := t - h) (b := m)]
    exact Int.emod_eq_of_lt (by omega) (by omega)

theorem ring_offset (m h k : Int) (h0 : 0 ≤ h) (h1 : h < m) (k0 : 0 ≤ k)
    (k1 : k < m) : (h + k) % m = if h + k < m then h + k else h + k - m := by
  split
  · exact Int.emod_eq_of_lt (by omega) (by omega)
  · have : (h + k) % m = (h + k - m) % m := by
      rw [← Int.add_emod_self (a := h + k - m) (b := m)]
      congr 1
      omega
    rw [this]
    exact Int.emod_eq_of_lt (by omega) (by omega)

theorem ring_snapshot_slots_cons (m h t : Int) (hm : 0 < m) (h0 : 0 ≤ h) (h1 : h < m)
    (t0 : 0 ≤ t) (t1 : t < m) (hne : h ≠ t) :
    ring_snapshot_slots m h t = h :: ring_snapshot_slots m ((h + 1).tmod m) t := by
  have hn := ring_next m h h0 h1
  have hc : ((t - h) % m).toNat = ((t - (h + 1).tmod m) % m).toNat + 1 := by
    rw [ring_gap m h t h0 h1 t0 t1]
    rw [ring_gap m ((h + 1).tmod m) t (by rw [hn]; split <;> omega)
      (by rw [hn]; split <;> omega) t0 t1, hn]
    split_ifs <;> omega
  unfold ring_snapshot_slots
  rw [hc, List.range_succ_eq_map, List.map_cons, List.map_map]
  congr 1
  · simp only [Nat.cast_zero, add_zero]
    exact Int.emod_eq_of_lt h0 h1
  · apply List.map_congr_left
    intro k _
    simp only [Function.comp, Nat.succ_eq_add_one]
    rw [Int.tmod_eq_emod (by omega) (by omega), Int.emod_add_emod]
    congr 1
    push_cast
    ring

/-- The ring walk visits exactly the snapshot slots, in circular order, and
marks the frame identifiers of each. -/
theorem dmark_ring_eq (rbuf : pf2_ringbuffer) (hm : 0 < rbuf.size) :
    ∀ (fuel : Nat) (head tail : Int), 0 ≤ head → head < rbuf.size → 0 ≤ tail →
      tail < rbuf.size → ((tail - head) % rbuf.size).toNat < fuel →
      dmark_ring rbuf fuel head tail =
        some (ring_snapshot_slots rbuf.size head tail,
              (ring_snapshot_slots rbuf.size head tail).flatMap
                (fun i => frame_ids (rbuf.samples.getD i.toNat default))) := by
  intro fuel
  induction fuel with
  | zero => intro head tail _ _ _ _ hf; omega
  | succ f ih =>
    intro head tail h0 h1 t0 t1 hf
    by_cases hne : head = tail
    · subst hne
      simp [dmark_ring, ring_snapshot_slots]
    · have hn := ring_next rbuf.size head h0 h1
      have hcons := ring_snapshot_slots_cons rbuf.size head tail hm h0 h1 t0 t1 hne
      have hlen : ((tail - (head + 1).tmod rbuf.size) % rbuf.size).toNat < f := by
        have := congrArg List.length hcons
        simp only [ring_snapshot_slots, List.length_map, List.length_range,
          List.length_cons] at this
        omega
      have hrec := ih ((head + 1).tmod rbuf.size) tail (by rw [hn]; split <;> omega)
        (by rw [hn]; split <;> omega) t0 t1 hlen
      simp only [dmark_ring, ne_eq, hne, not_false_eq_true, if_true, hrec]
      rw [hcons, List.flatMap_cons, mark_sample_eq]

/-- The snapshot slots are pairwise distinct and lie in `[0, size)`. -/
theorem ring_snapshot_slots_nodup (m h t : Int) (hm : 0 < m) (h0 : 0 ≤ h) (h1 : h < m) :
    (ring_snapshot_slots m h t).Nodup ∧
    ∀ i ∈ ring_snapshot_slots m h t, 0 ≤ i ∧ i < m := by
  have hlt : ((t - h) % m).toNat < m.toNat := by
    have := Int.emod_lt_of_pos (t - h) hm
    have := Int.emod_nonneg (t - h) (by omega : m ≠ 0)
    omega
  constructor
  · unfold ring_snapshot_slots
    apply List.Nodup.map_on _ (List.nodup_range _)
    intro a ha b hb hab
    rw [List.mem_range] at ha hb
    rw [ring_offset m h a h0 h1 (by omega) (by omega),
      ring_offset m h b h0 h1 (by omega) (by omega)] at hab
    split_ifs at hab <;> omega
  · intro i hi
    unfold ring_snapshot_slots at hi
    rw [List.mem_map] at hi
    obtain ⟨k, _, rfl⟩ := hi
    exact ⟨Int.emod_nonneg _ (by omega), Int.emod_lt_of_pos _ hm⟩

/-- Whatever the state of the store lock, `pf2_session_dmark` walks exactly the
snapshot slots and leaves the ring buffer as it found it. -/
theorem pf2_session_dmark_slots (fuel : Nat) (s : pf2_session) (hm : 0 < s.rbuf.size)
    (h0 : 0 ≤ s.rbuf.head) (h1 : s.rbuf.head < s.rbuf.size) (t0 : 0 ≤ s.rbuf.tail)
    (t1 : s.rbuf.tail < s.rbuf.size)
    (hf : ((s.rbuf.tail - s.rbuf.head) % s.rbuf.size).toNat < fuel) :
    ∃ r, pf2_session_dmark fuel s = some r ∧
      r.slots = ring_snapshot_slots s.rbuf.size s.rbuf.head s.rbuf.tail ∧
      r.session.rbuf = s.rbuf := by
  have hring := dmark_ring_eq s.rbuf hm fuel s.rbuf.head s.rbuf.tail h0 h1 t0 t1 hf
  unfold pf2_session_dmark
  simp only [hring]
  cases hlock : s.samples_lock with
  | wrlocked => exact ⟨_, rfl, rfl, rfl⟩
  | unlocked => exact ⟨_, rfl, rfl, rfl⟩
  | rdlocked n => exact ⟨_, rfl, rfl, rfl⟩

/-- The ring buffer modelled from the spec yields, on a well-formed buffer,
exactly the samples in the slots from `head` up to `tail`: the drain loop
therefore always comes to an end on it. -/
theorem pf2_ringbuffer_pop_yields :
    ∀ (n : Nat) (rb : pf2_ringbuffer), 0 < rb.size → 0 ≤ rb.head → rb.head < rb.size →
      0 ≤ rb.tail → rb.tail < rb.size → ((rb.tail - rb.head) % rb.size).toNat = n →
      yields pf2_ringbuffer_pop rb
        ((ring_snapshot_slots rb.size rb.head rb.tail).map
          (fun i => rb.samples.getD i.toNat default)) := by
  intro n
  induction n with
  | zero =>
    intro rb hm h0 h1 t0 t1 hn
    have heq : rb.head = rb.tail := by
      rw [ring_gap rb.size rb.head rb.tail h0 h1 t0 t1] at hn
      split_ifs at hn <;> omega
    refine ⟨rb, ?_, by simp [pf2_ringbuffer_pop, heq]⟩
    simp [ring_snapshot_slots, hn, pops]
  | succ n ih =>
    intro rb hm h0 h1 t0 t1 hn
    have hne : rb.head ≠ rb.tail := by
      intro heq
      rw [heq] at hn
      simp at hn
    have hnext := ring_next rb.size rb.head h0 h1
    have hcons := ring_snapshot_slots_cons rb.size rb.head rb.tail hm h0 h1 t0 t1 hne
    have hlen : ((rb.tail - (rb.head + 1).tmod rb.size) % rb.size).toNat = n := by
      have := congrArg List.length hcons
      simp only [ring_snapshot_slots, List.length_map, List.length_range,
        List.length_cons] at this
      omega
    obtain ⟨rb_end, hp, hnone⟩ :=
      ih { rb with head := (rb.head + 1).tmod rb.size } hm
        (by simp only; rw [hnext]; split <;> omega)
        (by simp only; rw [hnext]; split <;> omega) t0 t1 hlen
    refine ⟨rb_end, ?_, hnone⟩
    rw [hcons, List.map_cons]
    exact ⟨{ rb with head := (rb.head + 1).tmod rb.size },
      by simp [pf2_ringbuffer_pop, hne], hp⟩

/-! ## Claims -/

/-- C1: a drain cycle started with `samples_index ≤ samples_capacity` ends,
for every sequence of samples the ring buffer yields and every answer of the
allocator, with `samples_index ≤ samples_capacity` and a capacity equal to the
old one times a power of two.  The cycle is one the program has: the capacity
is positive (`pf2_session_alloc` sets 500 and only the doubling changes it),
and the stored samples together with the `n` waiting ones number at most
`2^63`, as they all lie in memory at once. -/
theorem drain_capacity_invariant
    (pop : pf2_ringbuffer → Option (pf2_sample × pf2_ringbuffer)) (sz fuel : Nat)
    (oracle : Nat → alloc_answer) (s : pf2_session) (ss : List pf2_sample)
    (hy : yields pop s.rbuf ss) (hf : ss.length < fuel)
    (hle : s.samples_index ≤ s.samples_capacity) (hpos : 0 < s.samples_capacity)
    (hb : s.samples_index + ss.length ≤ 9223372036854775808) :
    ∃ e s1, drain pop sz fuel oracle s = some (e, s1) ∧
      s1.samples_index ≤ s1.samples_capacity ∧
      ∃ k : Nat, s1.samples_capacity = s.samples_capacity * 2 ^ k :=
  drain_fields pop sz ss fuel oracle s hy hf hle hpos hb

/-- C1, on a store of capacity 2 holding one sample while four more wait in the
ring buffer. -/
theorem drain_capacity_invariant_witness :
    ∃ e s1,
      drain pf2_ringbuffer_pop 8 5 always_ok
          (with_pending (example_session 1 2 [sample_c, default])
            [sample_a, sample_b, sample_c, sample_a]) = some (e, s1) ∧
      s1.samples_index ≤ s1.samples_capacity ∧
      ∃ k : Nat, s1.samples_capacity = 2 * 2 ^ k :=
  drain_capacity_invariant pf2_ringbuffer_pop 8 5 always_ok
    (with_pending (example_session 1 2 [sample_c, default])
      [sample_a, sample_b, sample_c, sample_a])
    [sample_a, sample_b, sample_c, sample_a]
    ⟨_, ⟨_, rfl, _, rfl, _, rfl, _, rfl, rfl⟩, rfl⟩
    (by decide) (by decide) (by decide) (by decide)

/-- C2: in a drain cycle in which no store growth fails, if the ring buffer
yields `s1, ..., sn`, the loop ends by finding the buffer empty, the first
`samples_index` entries of the store are the previously stored entries followed
by `s1, ..., sn` in that order, and `samples_index` has grown by exactly `n`.
The cycle is one the program has: the block holds `samples_capacity > 0`
elements (`pf2_session_alloc` allocates 500, every growth doubles block and
capacity together), `samples_index ≤ samples_capacity`, and the store the cycle
ends with, `samples_index + n` samples of `sizeof(struct pf2_sample)` bytes, is
an object of at most `2^63` bytes. -/
theorem drain_appends_in_order
    (pop : pf2_ringbuffer → Option (pf2_sample × pf2_ringbuffer)) (sz fuel : Nat)
    (oracle : Nat → alloc_answer) (s : pf2_session) (ss : List pf2_sample)
    (hsz : 0 < sz) (hy : yields pop s.rbuf ss) (hf : ss.length < fuel)
    (hor : ∀ i, i < ss.length → oracle i = alloc_answer.granted)
    (hlen : s.samples.length = s.samples_capacity)
    (hle : s.samples_index ≤ s.samples_capacity) (hpos : 0 < s.samples_capacity)
    (hb : 2 * ((s.samples_index + ss.length) * sz) ≤ SIZE_MOD) :
    ∃ s1, drain pop sz fuel oracle s = some (drain_exit.empty, s1) ∧
      s1.samples_index = s.samples_index + ss.length ∧
      s1.samples.take s1.samples_index = s.samples.take s.samples_index ++ ss := by
  obtain ⟨s1, hd, hi, ht, _, _⟩ :=
    drain_contents pop sz hsz ss fuel oracle s hy hf hor hlen hle hpos hb
  exact ⟨s1, hd, hi, ht⟩

/-- C2, on a store of capacity 2 holding one sample while nine more wait in the
ring buffer: three doublings, all samples kept in order. -/
theorem drain_appends_in_order_witness :
    ∃ s1,
      drain pf2_ringbuffer_pop 8 10 always_ok
          (with_pending (example_session 1 2 [sample_c, default]) nine_samples) =
        some (drain_exit.empty, s1) ∧
      s1.samples_index = 1 + 9 ∧
      s1.samples.take s1.samples_index = [sample_c] ++ nine_samples :=
  drain_appends_in_order pf2_ringbuffer_pop 8 10 always_ok
    (with_pending (example_session 1 2 [sample_c, default]) nine_samples) nine_samples
    (by decide)
    ⟨_, ⟨_, rfl, _, rfl, _, rfl, _, rfl, _, rfl, _, rfl, _, rfl, _, rfl, _, rfl, rfl⟩, rfl⟩
    (by decide) (fun _ _ => rfl) (by decide) (by decide) (by decide) (by decide)

/-- C6: in a pass of the collector loop that takes the write lock, appends `k`
samples and then fails to grow the full store for the next popped sample `x`,
the pass ends at the sleep with the lock released; the session is the one the
failing iteration started from (same `samples_index`, `samples_capacity` and
stored samples) except that the ring buffer is the one `pop` left after
handing out `x`, so only `x` is lost and everything still unread stays queued;
and `is_running` is still set, so the loop goes on to its next pass. -/
theorem collector_survives_failed_growth
    (pop : pf2_ringbuffer → Option (pf2_sample × pf2_ringbuffer)) (sz fuel k : Nat)
    (oracle : Nat → alloc_answer) (s t : pf2_session) (x : pf2_sample) (rb : pf2_ringbuffer)
    (hrun : s.is_running = true) (hlock : s.samples_lock = rwlock.unlocked)
    (hpre : drain_appended pop sz k oracle { s with samples_lock := rwlock.wrlocked } = some t)
    (hpop : pop t.rbuf = some (x, rb))
    (hfull : ¬ t.samples_index < t.samples_capacity)
    (hfail : oracle k = alloc_answer.refused) (hf : k < fuel) :
    sample_collector_thread pop sz fuel oracle s =
      some ⟨control.sleeping, some drain_exit.growth_failed,
            { t with rbuf := rb, samples_lock := rwlock.unlocked }⟩ ∧
    t.is_running = true := by
  obtain ⟨hl, hr⟩ := drain_appended_keeps_control pop sz k oracle _ t hpre
  simp only at hl hr
  obtain ⟨f, rfl⟩ : ∃ f, fuel = k + (f + 1) := ⟨fuel - k - 1, by omega⟩
  have hdrain : drain pop sz (k + (f + 1)) oracle { s with samples_lock := rwlock.wrlocked } =
      some (drain_exit.growth_failed, { t with rbuf := rb }) := by
    rw [drain_after_appended pop sz k (f + 1) oracle _ t hpre,
      drain_succ_some pop sz f _ t x rb hpop]
    simp only [Nat.zero_add, hfail]
    rw [ensure_grow_fail sz { t with rbuf := rb } hfull]
  refine ⟨?_, by rw [hr, hrun]⟩
  unfold sample_collector_thread
  rw [if_pos hrun]
  simp only [hlock, pthread_rwlock_trywrlock, ne_eq, not_true_eq_false, if_false, hdrain, hl,
    pthread_rwlock_unlock]

/-- C6, on a store of capacity 2 holding one sample while three more wait and
the allocator refuses to grow: the first is appended, the second is dropped,
the third stays in the ring buffer. -/
theorem collector_survives_failed_growth_witness :
    sample_collector_thread pf2_ringbuffer_pop 8 5 never_ok
        (with_pending (example_session 1 2 [sample_c, default])
          [sample_a, sample_b, sample_c]) =
      some ⟨control.sleeping, some drain_exit.growth_failed,
            { example_full_session with
              rbuf := { size := 4, head := 2, tail := 3
                        samples := [sample_a, sample_b, sample_c, default] }
              samples_lock := rwlock.unlocked }⟩ ∧
    example_full_session.is_running = true :=
  collector_survives_failed_growth pf2_ringbuffer_pop 8 5 1 never_ok
    (with_pending (example_session 1 2 [sample_c, default]) [sample_a, sample_b, sample_c])
    example_full_session sample_b
    { size := 4, head := 2, tail := 3, samples := [sample_a, sample_b, sample_c, default] }
    (by decide) (by decide) (by decide) (by decide) (by decide) (by decide) (by decide)

/-- C10: on a ring buffer with `size > 0` and a snapshot `0 ≤ head, tail <
size`, the ring walk of `pf2_session_dmark` finishes (any fuel above
`(tail - head) mod size` is enough), makes exactly `(tail - head) mod size`
iterations, reads only slots in `[0, size)`, reads no slot twice, and leaves
the ring buffer, `head` and `tail` included, unchanged. -/
theorem dmark_ring_walk_bounded (fuel : Nat) (s : pf2_session) (hm : 0 < s.rbuf.size)
    (h0 : 0 ≤ s.rbuf.head) (h1 : s.rbuf.head < s.rbuf.size) (t0 : 0 ≤ s.rbuf.tail)
    (t1 : s.rbuf.tail < s.rbuf.size)
    (hf : ((s.rbuf.tail - s.rbuf.head) % s.rbuf.size).toNat < fuel) :
    ∃ r, pf2_session_dmark fuel s = some r ∧
      (r.slots.length : Int) = (s.rbuf.tail - s.rbuf.head) % s.rbuf.size ∧
      (∀ i ∈ r.slots, 0 ≤ i ∧ i < s.rbuf.size) ∧
      r.slots.Nodup ∧
      r.session.rbuf = s.rbuf := by
  obtain ⟨r, hr, hslots, hrb⟩ := pf2_session_dmark_slots fuel s hm h0 h1 t0 t1 hf
  obtain ⟨hnd, hin⟩ := ring_snapshot_slots_nodup s.rbuf.size s.rbuf.head s.rbuf.tail hm h0 h1
  refine ⟨r, hr, ?_, by rw [hslots]; exact hin, by rw [hslots]; exact hnd, hrb⟩
  rw [hslots]
  simp only [ring_snapshot_slots, List.length_map, List.length_range]
  exact Int.toNat_of_nonneg (Int.emod_nonneg _ (by omega))

/-- C10, on a wrapped-around ring buffer: two iterations, over slots 3 and 0. -/
theorem dmark_ring_walk_bounded_witness :
    ∃ r, pf2_session_dmark 3 example_marking_session = some r ∧
      (r.slots.length : Int) = (1 - 3) % 4 ∧
      (∀ i ∈ r.slots, 0 ≤ i ∧ i < 4) ∧
      r.slots.Nodup ∧
      r.session.rbuf = example_marking_session.rbuf :=
  dmark_ring_walk_bounded 3 example_marking_session (by decide) (by decide) (by decide)
    (by decide) (by decide) (by decide)

/-- C4: `sigprof_handler` with `is_marking` set returns at once: no call of
`pf2_sample_capture`, no push, session unchanged.  In general an invocation
changes nothing of the session but the ring buffer, and the ring buffer only
when the flag is clear and the capture succeeded (the change is then the one
`pf2_ringbuffer_push` makes).  When the flag is set, the capture fails, or the
push reports a full buffer (and, as the ring buffer promises, leaves it
untouched), the session is exactly as before: the sample is dropped, and the
handler has no way to report an error, it only returns. -/
theorem sigprof_handler_drops_silently
    (push : pf2_ringbuffer → pf2_sample → Bool × pf2_ringbuffer)
    (capture : Option pf2_sample) (s : pf2_session) :
    (s.is_marking = true → sigprof_handler push capture s = (s, [])) ∧
    ((sigprof_handler push capture s).1 =
      { s with rbuf := (sigprof_handler push capture s).1.rbuf }) ∧
    ((sigprof_handler push capture s).1.rbuf ≠ s.rbuf →
      s.is_marking = false ∧
      ∃ x, capture = some x ∧ (sigprof_handler push capture s).1.rbuf = (push s.rbuf x).2) ∧
    ((∀ rb x, (push rb x).1 = false → (push rb x).2 = rb) →
      (s.is_marking = true ∨ capture = none ∨
        ∃ x, capture = some x ∧ (push s.rbuf x).1 = false) →
      (sigprof_handler push capture s).1 = s) := by
  obtain ⟨run, marking, rbuf, smp, idx, cap, lk, t1, t2, d, cfg⟩ := s
  unfold sigprof_handler
  cases marking
  · cases capture with
    | none => simp
    | some x =>
      cases hp : push rbuf x with
      | mk b rb =>
        have hp2 : (push rbuf x).2 = rb := by rw [hp]
        cases b
        · simp only [Bool.false_eq_true, if_false, hp, ne_eq, false_implies, true_and,
            Option.some.injEq, exists_eq_left', reduceCtorEq, false_or, hp2]
          refine ⟨fun _ => trivial, ?_⟩
          intro hpush _
          have := hpush rbuf x (by rw [hp])
          rw [hp] at this
          simp only at this
          rw [this]
        · simp [hp]
  · simp

/-- C4, on a session in the middle of a mark pass, and on a session whose ring
buffer is full: nothing changes. -/
theorem sigprof_handler_drops_silently_witness :
    sigprof_handler pf2_ringbuffer_push (some sample_c)
        { example_full_ring_session with is_marking := true } =
      ({ example_full_ring_session with is_marking := true }, []) ∧
    (sigprof_handler pf2_ringbuffer_push (some sample_c) example_full_ring_session).1 =
      example_full_ring_session :=
  ⟨(sigprof_handler_drops_silently pf2_ringbuffer_push (some sample_c)
      { example_full_ring_session with is_marking := true }).1 (by decide),
   (sigprof_handler_drops_silently pf2_ringbuffer_push (some sample_c)
      example_full_ring_session).2.2.2
      (by
        intro rb x h
        unfold pf2_ringbuffer_push at h ⊢
        split
        · rfl
        · next hne => simp [hne] at h)
      (Or.inr (Or.inr ⟨sample_c, rfl, by decide⟩))⟩

/-- C5 (as stated, refuted): when `sigaction` fails, `start` raises with the
collector thread already spawned and still running and `is_running` left set;
when arming fails, it raises with, in addition, the timer left created. -/
theorem start_failure_leaves_thread_and_timer :
    rb_pf2_session_start true { all_ok with sigaction_sigprof_ok := false } ⟨5, 0⟩ ⟨7, 0⟩
        (idle_world ⟨10, pf2_time_mode.cpu_time⟩) =
      (call_result.raised session_error.sigprof_handler_failed,
        ⟨{ (idle_world ⟨10, pf2_time_mode.cpu_time⟩).session with
           is_running := true, start_time_realtime := ⟨5, 0⟩, start_time := ⟨7, 0⟩ },
         { idle_process with collector_running := true }⟩) ∧
    rb_pf2_session_start true { all_ok with timer_settime_ok := false } ⟨5, 0⟩ ⟨7, 0⟩
        (idle_world ⟨10, pf2_time_mode.cpu_time⟩) =
      (call_result.raised session_error.timer_start_failed,
        ⟨{ (idle_world ⟨10, pf2_time_mode.cpu_time⟩).session with
           is_running := true, start_time_realtime := ⟨5, 0⟩, start_time := ⟨7, 0⟩ },
         { idle_process with
           collector_running := true, sigprof_installed := true, timer_created := true }⟩) := by
  decide

/-- C5 (amended): every failing execution of `rb_pf2_session_start` started
with no collector thread running and no timer created or armed (whatever
signal handlers an earlier session left installed) leaves no timer armed; it leaves
`is_running` set; it leaves the collector thread running unless the failure is
the spawn itself; and it leaves a timer created exactly when the failure is in
arming the kernel timer. -/
theorem start_failure_state (have_timer_create : Bool) (sys : syscalls)
    (now_realtime now : timespec) (w w1 : world) (e : session_error)
    (hthread : w.proc.collector_running = false)
    (hcreated : w.proc.timer_created = false) (harmed : w.proc.timer_armed = false)
    (hfail : rb_pf2_session_start have_timer_create sys now_realtime now w =
      (call_result.raised e, w1)) :
    w1.proc.timer_armed = false ∧
    w1.session.is_running = true ∧
    (w1.proc.collector_running = true ↔ e ≠ session_error.spawn_failed) ∧
    (w1.proc.timer_created = true ↔
      (have_timer_create = true ∧ e = session_error.timer_start_failed)) := by
  obtain ⟨s, ⟨running, sigprof, sigalrm, created, armed, global⟩⟩ := w
  simp only at hthread hcreated harmed
  subst hthread hcreated harmed
  unfold rb_pf2_session_start at hfail
  simp only at hfail
  split_ifs at hfail with h1 h2 h3 h4 h5
  · simp only [Prod.mk.injEq, call_result.raised.injEq] at hfail
    obtain ⟨rfl, rfl⟩ := hfail
    simp
  · simp only [Prod.mk.injEq, call_result.raised.injEq] at hfail
    obtain ⟨rfl, rfl⟩ := hfail
    simp
  · simp only [Prod.mk.injEq, call_result.raised.injEq] at hfail
    obtain ⟨rfl, rfl⟩ := hfail
    simp [h3]
  · split at hfail
    · simp only [Prod.mk.injEq, call_result.raised.injEq] at hfail
      obtain ⟨rfl, rfl⟩ := hfail
      simp [h3]
    · simp at hfail
  · simp only [Prod.mk.injEq, call_result.raised.injEq] at hfail
    obtain ⟨rfl, rfl⟩ := hfail
    simp [h3]
  · split at hfail
    · simp only [Prod.mk.injEq, call_result.raised.injEq] at hfail
      obtain ⟨rfl, rfl⟩ := hfail
      simp [h3]
    · simp at hfail

/-- C5 (amended), when the timer cannot be created: the thread stays, no timer
exists. -/
theorem start_failure_state_witness :
    ({ idle_process with collector_running := true, sigprof_installed := true }).timer_armed =
      false ∧
    ({ (idle_world ⟨10, pf2_time_mode.cpu_time⟩).session with
        is_running := true, start_time_realtime := ⟨5, 0⟩, start_time := ⟨7, 0⟩ }).is_running =
      true ∧
    (({ idle_process with collector_running := true, sigprof_installed := true }).collector_running =
        true ↔ session_error.timer_create_failed ≠ session_error.spawn_failed) ∧
    (({ idle_process with collector_running := true, sigprof_installed := true }).timer_created =
        true ↔ (true = true ∧
          session_error.timer_create_failed = session_error.timer_start_failed)) :=
  start_failure_state true { all_ok with timer_create_ok := false } ⟨5, 0⟩ ⟨7, 0⟩
    (idle_world ⟨10, pf2_time_mode.cpu_time⟩)
    ⟨{ (idle_world ⟨10, pf2_time_mode.cpu_time⟩).session with
       is_running := true, start_time_realtime := ⟨5, 0⟩, start_time := ⟨7, 0⟩ },
     { idle_process with collector_running := true, sigprof_installed := true }⟩
    session_error.timer_create_failed (by decide) (by decide) (by decide) (by decide)

/-- C7: for a start timestamp with non-negative seconds, nanoseconds of both
timestamps in `[0, 10^9)` and an end timestamp not earlier than the start, the
`duration_ns` that `rb_pf2_session_stop` stores is exactly
`(end.tv_sec*10^9 + end.tv_nsec) - (start.tv_sec*10^9 + start.tv_nsec)`, each
of the two `uint64_t` sums is the exact nanosecond count (no wrap-around), and
the duration is therefore `≥ 0`.  The end timestamp is one
`clock_gettime(CLOCK_MONOTONIC)` delivers: its seconds are at most 18446744072
(over 584 years of monotonic time), the largest count whose nanoseconds fit
`uint64_t`. -/
theorem stop_duration_exact (have_timer_create : Bool) (sys : syscalls)
    (end_time : timespec) (w : world)
    (hs : 0 ≤ w.session.start_time.tv_sec) (hsn : 0 ≤ w.session.start_time.tv_nsec)
    (hsn1 : w.session.start_time.tv_nsec < 1000000000)
    (hen : 0 ≤ end_time.tv_nsec) (hen1 : end_time.tv_nsec < 1000000000)
    (hord : w.session.start_time.tv_sec * 1000000000 + w.session.start_time.tv_nsec ≤
      end_time.tv_sec * 1000000000 + end_time.tv_nsec)
    (hend : end_time.tv_sec ≤ 18446744072) :
    (((rb_pf2_session_stop have_timer_create sys end_time w).2.session.duration_ns : Nat) : Int) =
      (end_time.tv_sec * 1000000000 + end_time.tv_nsec) -
        (w.session.start_time.tv_sec * 1000000000 + w.session.start_time.tv_nsec) ∧
    ((timespec_ns end_time : Nat) : Int) = end_time.tv_sec * 1000000000 + end_time.tv_nsec ∧
    ((timespec_ns w.session.start_time : Nat) : Int) =
      w.session.start_time.tv_sec * 1000000000 + w.session.start_time.tv_nsec ∧
    (0 : Int) ≤ ((rb_pf2_session_stop have_timer_create sys end_time w).2.session.duration_ns :
      Nat) := by
  have hdur : (rb_pf2_session_stop have_timer_create sys end_time w).2.session.duration_ns =
      (timespec_ns end_time + SIZE_MOD - timespec_ns w.session.start_time) % SIZE_MOD := by
    unfold rb_pf2_session_stop
    simp only
    split_ifs
    · rfl
    · rfl
    · split <;> rfl
  rw [hdur]
  simp only [timespec_ns, to_uint64, SIZE_MOD]
  refine ⟨?_, ?_, ?_, ?_⟩ <;> omega

/-- C7, for a run from 100.999999999 s to 101.000000005 s: 6 ns. -/
theorem stop_duration_exact_witness :
    (((rb_pf2_session_stop true all_ok ⟨101, 5⟩ example_started_world).2.session.duration_ns :
        Nat) : Int) = (101 * 1000000000 + 5) - (100 * 1000000000 + 999999999) :=
  (stop_duration_exact true all_ok ⟨101, 5⟩ example_started_world (by decide) (by decide)
    (by decide) (by decide) (by decide) (by decide) (by decide)).1

/-- A product inside the `int` range is not changed by the wrap. -/
theorem to_int32_of_range (x : Int) (h0 : -2147483648 ≤ x) (h1 : x < 2147483648) :
    to_int32 x = x := by
  unfold to_int32
  rw [Int.emod_eq_of_lt (by omega) (by omega)]
  omega

/-- For intervals below one second the timer values `start` builds are
well-formed and denote `interval_ms` milliseconds. -/
theorem start_timer_value_valid (configuration : pf2_configuration)
    (h0 : 0 < configuration.interval_ms) (h1 : configuration.interval_ms < 1000) :
    timespec_valid (start_itimerspec configuration).it_value = true ∧
    timespec_valid (start_itimerspec configuration).it_interval = true ∧
    (start_itimerspec configuration).it_value.tv_nsec = configuration.interval_ms * 1000000 ∧
    timeval_valid (start_itimerval configuration).it_value = true ∧
    timeval_valid (start_itimerval configuration).it_interval = true ∧
    (start_itimerval configuration).it_value.tv_usec = configuration.interval_ms * 1000 := by
  have hns : to_int32 (configuration.interval_ms * 1000000) =
      configuration.interval_ms * 1000000 := to_int32_of_range _ (by omega) (by omega)
  have hus : to_int32 (configuration.interval_ms * 1000) =
      configuration.interval_ms * 1000 := to_int32_of_range _ (by omega) (by omega)
  simp only [start_itimerspec, start_itimerval, timespec_valid, timeval_valid, hns, hus,
    Bool.and_eq_true, decide_eq_true_eq]
  and_intros <;> first | omega | trivial

/-- C8 (the code at the failing input `interval_ms = 1000`): the kernel-timer
value `start` builds has `tv_nsec = 10^9` and the fallback value has `tv_usec =
10^6`, both outside the well-formed range although neither product overflows;
with every library call otherwise succeeding, `start` raises "Failed to start
timer" on both builds instead of arming a one-second timer. -/
theorem start_rejects_one_second_interval :
    start_itimerspec ⟨1000, pf2_time_mode.cpu_time⟩ =
      ⟨⟨0, 1000000000⟩, ⟨0, 1000000000⟩⟩ ∧
    timespec_valid (start_itimerspec ⟨1000, pf2_time_mode.cpu_time⟩).it_value = false ∧
    start_itimerval ⟨1000, pf2_time_mode.cpu_time⟩ = ⟨⟨0, 1000000⟩, ⟨0, 1000000⟩⟩ ∧
    timeval_valid (start_itimerval ⟨1000, pf2_time_mode.cpu_time⟩).it_value = false ∧
    (rb_pf2_session_start true all_ok ⟨5, 0⟩ ⟨7, 0⟩
        (idle_world ⟨1000, pf2_time_mode.cpu_time⟩)).1 =
      call_result.raised session_error.timer_start_failed ∧
    (rb_pf2_session_start false all_ok ⟨5, 0⟩ ⟨7, 0⟩
        (idle_world ⟨1000, pf2_time_mode.cpu_time⟩)).1 =
      call_result.raised session_error.timer_start_failed := by
  decide

end Pf2
